import Mathlib

/-!
Shallow embedding of `experiments/utils/data/ctc_all_load.py`
(`DatasetBase.__init__` and `DatasetBase.next_batch`), the batching /
padding / sharding utility for CTC training data.

Modelling conventions:
* The Python set `self.rest` is modelled as a `List Nat` with a fixed
  iteration order (CPython set iteration is stable across in-place
  difference, and the spec relies only on "set difference does not
  reorder"); `list(self.rest)[:b]` is `rest.take b` and
  `self.rest -= set(drawn)` is `rest.filter (fun x => !drawn.contains x)`.
* `random.shuffle` and `random.sample` are modelled as oracle functions
  passed in as parameters; theorems constrain them (e.g. a shuffle
  produces a permutation).
* numpy arrays are nested lists; frame values are `Int` (only zero-filling
  and verbatim copying occur, no arithmetic).
* File paths are `List Char`; `os.path.basename(p).split('.')[0]` is
  modelled character by character.
* `tf.split(x, n, axis=0)` requires `n` to divide the length of the batch
  axis; it is modelled as an `Option`, `none` being the runtime error.
* The sparse-tensor conversion (`list2sparsetensor`) and `session.run` are
  external collaborators and out of scope; the dense arrays they receive
  are what the model returns.
-/

namespace CtcAllLoad

/-- Python `str.split(sep)` for a single-character separator, on char
lists: `"a..b".split('.') == ["a", "", "b"]`. -/
def splitOnChar (c : Char) : List Char → List (List Char)
  | [] => [[]]
  | x :: xs =>
    let r := splitOnChar c xs
    if x = c then [] :: r else (x :: r.headD []) :: r.tail

/-- `os.path.basename`: the part of the path after the last `/`. -/
def osPathBasename (p : List Char) : List Char :=
  (splitOnChar '/' p).getLastD []

/-- Line 121-122 / 166-167: `os.path.basename(self.input_paths[x]).split('.')[0]`:
the part of the base name before the first dot. -/
def inputName (p : List Char) : List Char :=
  (splitOnChar '.' (osPathBasename p)).headD []

/-- Python `max` over a list of naturals (`0` on the empty list, on which
Python would instead raise). -/
def listMax : List Nat → Nat
  | [] => 0
  | x :: xs => max x (listMax xs)

/-- State of a `DatasetBase` object: the constructor arguments that
`next_batch` reads, the externally loaded data arrays, and the mutable
remaining pool `self.rest`. -/
structure Dataset where
  data_type : List Char
  batch_size : Nat
  is_sorted : Bool
  num_gpu : Nat
  input_size : Nat
  input_list : List (List (List Int))
  label_list : List (List Int)
  input_paths : List (List Char)
  data_num : Nat
  rest : List Nat
deriving DecidableEq

/-- `DatasetBase.__init__` (lines 22-57): stores `batch_size * num_gpu`
and initialises `self.rest = set(range(self.data_num))`.  The loading of
`input_list` / `label_list` / `input_paths` / `data_num` is done by the
external loader, so they are parameters. -/
def datasetBaseInit (data_type : List Char) (batch_size : Nat) (is_sorted : Bool)
    (num_gpu : Nat) (input_size : Nat) (input_list : List (List (List Int)))
    (label_list : List (List Int)) (input_paths : List (List Char))
    (data_num : Nat) : Dataset :=
  { data_type := data_type
    batch_size := batch_size * num_gpu
    is_sorted := is_sorted
    num_gpu := num_gpu
    input_size := input_size
    input_list := input_list
    label_list := label_list
    input_paths := input_paths
    data_num := data_num
    rest := List.range data_num }

/-- Lines 86-94 (sorted branch, index selection): if more than
`batch_size` indices remain, draw the first `batch_size` of the pool in
its fixed order and remove them; otherwise draw the whole pool, reset it
to the full range and raise the next-epoch flag.  Returns
`(drawn, new_rest, next_epoch_flag)`. -/
def selectSorted (b N : Nat) (rest : List Nat) : List Nat × List Nat × Bool :=
  if b < rest.length then
    let drawn := rest.take b
    (drawn, rest.filter (fun x => !drawn.contains x), false)
  else
    (rest, List.range N, true)

/-- Lines 128-141 (not-sorted branch, index selection): if more than
`batch_size` indices remain, draw a random sample (`sample` oracle) and
remove it; otherwise draw the whole pool (shuffled by the `shuffle`
oracle, line 141), reset the pool and raise the next-epoch flag. -/
def selectRandom (b N : Nat) (sample shuffle : List Nat → List Nat)
    (rest : List Nat) : List Nat × List Nat × Bool :=
  if b < rest.length then
    let drawn := sample rest
    (drawn, rest.filter (fun x => !drawn.contains x), false)
  else
    (shuffle rest, List.range N, true)

/-- One example's padded input rows (lines 106-107 and 117):
`inputs = np.zeros((B, max_frame_num, input_size))` followed by
`inputs[i, :frame_num, :] = data_i`: the true frames, then zero rows up
to `maxT`. -/
def padFrames (frames : List (List Int)) (maxT F : Nat) : List (List Int) :=
  frames ++ List.replicate (maxT - frames.length) (List.replicate F 0)

/-- One example's padded label row (lines 108-109 and 118-119):
`labels = [[padded_value] * max_seq_len] * B` followed by
`labels[i, :len] = label`: the true labels, then `-1` up to `maxL`. -/
def padLabels (lab : List Int) (maxL : Nat) : List Int :=
  lab ++ List.replicate (maxL - lab.length) (-1)

/-- The four dense arrays built by one iteration of the generator body
(shared shape of lines 105-122 and 150-167). -/
structure Batch where
  inputs : List (List (List Int))
  labels : List (List Int)
  inputs_seq_len : List Nat
  input_names : List (List Char)
deriving DecidableEq

/-- Lines 105-122 / 150-167: collate the drawn examples, in the order of
`idx`, into padded arrays. -/
def makeBatch (ds : Dataset) (idx : List Nat) (maxT maxL : Nat) : Batch :=
  { inputs := idx.map (fun x => padFrames (ds.input_list.getD x []) maxT ds.input_size)
    labels := idx.map (fun x => padLabels (ds.label_list.getD x []) maxL)
    inputs_seq_len := idx.map (fun x => (ds.input_list.getD x []).length)
    input_names := idx.map (fun x => inputName (ds.input_paths.getD x [])) }

/-- Line 97 (sorted branch): `max_frame_num = self.input_list[sorted_indices[-1]].shape[0]`,
the frame count of the *last* drawn index (computed before the in-batch
shuffle; correct only because the dataset is globally sorted by length). -/
def maxFrameNumSorted (ds : Dataset) (idx : List Nat) : Nat :=
  (ds.input_list.getD (idx.getLastD 0) []).length

/-- Lines 144-145 (not-sorted branch): the true maximum frame count among
the drawn examples. -/
def maxFrameNumRandom (ds : Dataset) (idx : List Nat) : Nat :=
  listMax (idx.map (fun x => (ds.input_list.getD x []).length))

/-- Lines 100 / 148: `max_seq_len = max(map(len, self.label_list[indices]))`. -/
def maxSeqLen (ds : Dataset) (idx : List Nat) : Nat :=
  listMax (idx.map (fun x => (ds.label_list.getD x []).length))

/-- Result of one iteration of the generator body, before the multi-GPU
split: the new pool, the index order used to build the arrays, the dense
arrays, and the next-epoch flag. -/
structure StepOut where
  rest' : List Nat
  idx : List Nat
  batch : Batch
  flag : Bool
deriving DecidableEq

/-- Lines 85-122 (sorted branch of the generator body): select, compute
the batch maxima on the drawn indices in pool order, shuffle the drawn
indices in place (line 103, `shuffle` oracle), collate. -/
def stepSorted (ds : Dataset) (b : Nat) (shuffle : List Nat → List Nat) : StepOut :=
  let sel := selectSorted b ds.data_num ds.rest
  let drawn := sel.1
  let maxT := maxFrameNumSorted ds drawn
  let maxL := maxSeqLen ds drawn
  let idx := shuffle drawn
  ⟨sel.2.1, idx, makeBatch ds idx maxT maxL, sel.2.2⟩

/-- Lines 127-167 (not-sorted branch of the generator body): select (the
rollover shuffle already happens inside `selectRandom`), compute the true
maxima over the drawn indices, collate. -/
def stepRandom (ds : Dataset) (b : Nat) (sample shuffle : List Nat → List Nat) :
    StepOut :=
  let sel := selectRandom b ds.data_num sample shuffle ds.rest
  let idx := sel.1
  let maxT := maxFrameNumRandom ds idx
  let maxL := maxSeqLen ds idx
  ⟨sel.2.1, idx, makeBatch ds idx maxT maxL, sel.2.2⟩

/-- `tf.split(l, n, axis=0)`: `n` contiguous slices of equal size; an
error (`none`) unless `n` is positive and divides the batch axis. -/
def tfSplit {α : Type} (l : List α) (n : Nat) : Option (List (List α)) :=
  if 0 < n ∧ l.length % n = 0 then
    some ((List.range n).map (fun i => (l.drop (i * (l.length / n))).take (l.length / n)))
  else
    none

/-- Lines 170-175: `divide_num = self.num_gpu`, then scan
`i = num_gpu, num_gpu - 1, ..., 1` and take the first `i` dividing `m`.
`firstDivisorDown m g` is the scan; `none` only when `g = 0`. -/
def firstDivisorDown (m : Nat) : Nat → Option Nat
  | 0 => none
  | i + 1 => if m % (i + 1) = 0 then some (i + 1) else firstDivisorDown m i

/-- The split count the code uses at a rollover batch: the first divisor
of `m` found scanning down from `g`, defaulting to `g`.  The `m` the code
passes is `len(self.rest)` *after* the pool reset, i.e. the dataset size. -/
def divideNum (g m : Nat) : Nat := (firstDivisorDown m g).getD g

/-- The four per-GPU shard lists produced by lines 179-182. -/
structure SplitBatch where
  inputs : List (List (List (List Int)))
  labels : List (List (List Int))
  inputs_seq_len : List (List Nat)
  input_names : List (List (List Char))
deriving DecidableEq

/-- Lines 169-182: choose the split count (adjusted by `divideNum` on a
rollover batch, where `restLen` is the length of the already-reset pool)
and `tf.split` all four arrays; `none` models the `tf.split` error when
the count does not divide the batch length. -/
def gpuSplit (g restLen : Nat) (flag : Bool) (b : Batch) : Option SplitBatch :=
  let d := if flag then divideNum g restLen else g
  match tfSplit b.inputs d, tfSplit b.labels d,
      tfSplit b.inputs_seq_len d, tfSplit b.input_names d with
  | some i, some l, some s, some n => some ⟨i, l, s, n⟩
  | _, _, _, _ => none

/-- The value yielded at line 195: either the four dense arrays
(`num_gpu == 1`) or the four shard lists. -/
inductive BatchOut where
  | single (b : Batch)
  | sharded (s : SplitBatch)
deriving DecidableEq

/-- One call of `next(...)` on the generator returned by
`DatasetBase.next_batch` (lines 59-195): the session check, the default
batch size, one iteration of the generator body, and the optional
multi-GPU split.  Returns the updated dataset state and the yielded
value, or the raised error. -/
def nextBatchStep (ds : Dataset) (bs : Option Nat) (session : Option Unit)
    (sample shuffle : List Nat → List Nat) : Except String (Dataset × BatchOut) :=
  if session.isNone && ds.num_gpu != 1 then
    .error "Set session when using multiple GPUs."
  else
    let batch_size := bs.getD ds.batch_size
    let out := if ds.is_sorted then stepSorted ds batch_size shuffle
               else stepRandom ds batch_size sample shuffle
    let ds' := { ds with rest := out.rest' }
    if 1 < ds.num_gpu then
      match gpuSplit ds.num_gpu out.rest'.length out.flag out.batch with
      | some sb => .ok (ds', BatchOut.sharded sb)
      | none => .error "tf.split: number of splits does not divide the batch axis"
    else
      .ok (ds', BatchOut.single out.batch)

/-- The sequence of index lists drawn by `k` successive iterations of the
sorted branch, starting from pool `rest`. -/
def drawsSorted (b N : Nat) : List Nat → Nat → List (List Nat)
  | _, 0 => []
  | rest, k + 1 =>
    let sel := selectSorted b N rest
    sel.1 :: drawsSorted b N sel.2.1 k

/-- The sequence of index lists drawn by `k` successive iterations of the
not-sorted branch. -/
def drawsRandom (b N : Nat) (sample shuffle : List Nat → List Nat) :
    List Nat → Nat → List (List Nat)
  | _, 0 => []
  | rest, k + 1 =>
    let sel := selectRandom b N sample shuffle rest
    sel.1 :: drawsRandom b N sample shuffle sel.2.1 k

/-- The pool after `k` iterations of the sorted branch. -/
def restAfterSorted (b N : Nat) : List Nat → Nat → List Nat
  | rest, 0 => rest
  | rest, k + 1 => restAfterSorted b N (selectSorted b N rest).2.1 k

/-- The number of generator iterations in one epoch over `m` examples with
batch size `b`: `⌈m / b⌉` for `m ≥ 1`. -/
def numCalls (m b : Nat) : Nat := (m - 1) / b + 1

end CtcAllLoad

namespace CtcAllLoad

/-! ### Basic lemmas about the helper functions -/

theorem le_listMax_of_mem {x : Nat} {l : List Nat} (h : x ∈ l) : x ≤ listMax l := by
  induction l with
  | nil => cases h
  | cons a t ih =>
    simp only [listMax]
    rcases List.mem_cons.mp h with rfl | h
    · exact Nat.le_max_left _ _
    · exact Nat.le_trans (ih h) (Nat.le_max_right _ _)

theorem listMax_le {l : List Nat} {m : Nat} (h : ∀ x ∈ l, x ≤ m) : listMax l ≤ m := by
  induction l with
  | nil => exact Nat.zero_le m
  | cons a t ih =>
    simp only [listMax]
    exact Nat.max_le.mpr ⟨h a (List.mem_cons_self a t), ih (fun x hx => h x (List.mem_cons_of_mem a hx))⟩

theorem padLabels_take (lab : List Int) (maxL : Nat) :
    (padLabels lab maxL).take lab.length = lab := by
  simpa [padLabels] using List.take_left lab _

theorem padLabels_getD {lab : List Int} {maxL j : Nat} (h1 : lab.length ≤ j)
    (h2 : j < (padLabels lab maxL).length) : (padLabels lab maxL).getD j 0 = -1 := by
  unfold padLabels at h2 ⊢
  rw [List.getD_append_right _ _ _ _ h1, List.getD_eq_getElem?_getD,
    List.getElem?_replicate, if_pos (by simp at h2; omega)]
  rfl

theorem padLabels_length {lab : List Int} {maxL : Nat} (h : lab.length ≤ maxL) :
    (padLabels lab maxL).length = maxL := by
  simp [padLabels]; omega

theorem padFrames_take (frames : List (List Int)) (maxT F : Nat) :
    (padFrames frames maxT F).take frames.length = frames := by
  simpa [padFrames] using List.take_left frames _

theorem padFrames_getD {frames : List (List Int)} {maxT F t : Nat}
    (h1 : frames.length ≤ t) (h2 : t < (padFrames frames maxT F).length) :
    (padFrames frames maxT F).getD t [] = List.replicate F 0 := by
  unfold padFrames at h2 ⊢
  rw [List.getD_append_right _ _ _ _ h1, List.getD_eq_getElem?_getD,
    List.getElem?_replicate, if_pos (by simp at h2; omega)]
  rfl

theorem padFrames_length {frames : List (List Int)} {maxT F : Nat}
    (h : frames.length ≤ maxT) : (padFrames frames maxT F).length = maxT := by
  simp [padFrames]; omega

theorem getD_map_of_lt {α β : Type} (f : α → β) (l : List α) {i : Nat}
    (h : i < l.length) (d : α) (e : β) : (l.map f).getD i e = f (l.getD i d) := by
  rw [List.getD_eq_getElem?_getD, List.getD_eq_getElem?_getD, List.getElem?_map,
    List.getElem?_eq_getElem h]
  rfl

end CtcAllLoad

namespace CtcAllLoad

/-! ### Pool dynamics -/

theorem filter_take_eq_drop {rest : List Nat} (h : rest.Nodup) (b : Nat) :
    rest.filter (fun x => !(rest.take b).contains x) = rest.drop b := by
  have hsplit : rest.take b ++ rest.drop b = rest := List.take_append_drop b rest
  have hnd : (rest.take b ++ rest.drop b).Nodup := by rw [hsplit]; exact h
  have hdisj : (rest.take b).Disjoint (rest.drop b) := (List.nodup_append.mp hnd).2.2
  have h1 : (rest.take b).filter (fun x => !(rest.take b).contains x) = [] := by
    apply List.filter_eq_nil_iff.mpr
    intro a ha
    simp [ha]
  have h2 : (rest.drop b).filter (fun x => !(rest.take b).contains x) = rest.drop b := by
    apply List.filter_eq_self.mpr
    intro a ha
    simpa using fun hmem => hdisj hmem ha
  have key : (rest.take b ++ rest.drop b).filter (fun x => !(rest.take b).contains x)
      = rest.drop b := by
    rw [List.filter_append, h1, h2, List.nil_append]
  rw [hsplit] at key
  exact key

theorem perm_drawn_append_filter {rest d : List Nat} (hr : rest.Nodup) (hd : d.Nodup)
    (hsub : ∀ x ∈ d, x ∈ rest) :
    (d ++ rest.filter (fun x => !d.contains x)).Perm rest := by
  have h1 : (rest.filter (fun x => d.contains x)).Perm d := by
    apply List.Subperm.antisymm
    · exact List.Nodup.subperm (hr.filter _)
        (fun x hx => by simpa using (List.mem_filter.mp hx).2)
    · exact List.Nodup.subperm hd
        (fun x hx => List.mem_filter.mpr ⟨hsub x hx, by simpa using hx⟩)
  exact List.Perm.trans (List.Perm.append h1.symm (List.Perm.refl _))
    (List.filter_append_perm _ rest)

theorem length_filter_not_contains {rest d : List Nat} (hr : rest.Nodup) (hd : d.Nodup)
    (hsub : ∀ x ∈ d, x ∈ rest) :
    (rest.filter (fun x => !d.contains x)).length = rest.length - d.length := by
  have := (perm_drawn_append_filter hr hd hsub).length_eq
  simp only [List.length_append] at this
  omega

theorem numCalls_of_le {m b : Nat} (hm : 0 < m) (hmb : m ≤ b) : numCalls m b = 1 := by
  unfold numCalls
  rw [Nat.div_eq_of_lt (by omega)]

theorem numCalls_of_lt {m b : Nat} (hb : 0 < b) (hmb : b < m) :
    numCalls m b = numCalls (m - b) b + 1 := by
  unfold numCalls
  rw [Nat.div_eq_sub_div hb (by omega)]
  have : m - 1 - b = m - b - 1 := by omega
  rw [this]

end CtcAllLoad

namespace CtcAllLoad

/-- Validity of the drawing oracle: on a pool it is asked to sample from,
`random.sample(rest, b)` returns `b` distinct elements of the pool. -/
def SampleValid (b : Nat) (sample : List Nat → List Nat) : Prop :=
  ∀ r : List Nat, r.Nodup → b < r.length →
    (sample r).Nodup ∧ (∀ x ∈ sample r, x ∈ r) ∧ (sample r).length = b

theorem take_sample_valid (b : Nat) : SampleValid b (fun r => r.take b) := by
  intro r hnd hlt
  refine ⟨(List.take_sublist b r).nodup hnd, fun x hx => (List.take_sublist b r).mem hx, ?_⟩
  simp [List.length_take]
  omega

/-- One epoch of the not-sorted branch covers the starting pool exactly:
the concatenation of the drawn index lists is a permutation of the pool. -/
theorem drawsRandom_epoch_perm (b N : Nat) (sample shuffle : List Nat → List Nat)
    (hb : 0 < b) (hsh : ∀ l : List Nat, (shuffle l).Perm l)
    (hs : SampleValid b sample) :
    ∀ (n : Nat) (rest : List Nat), rest.length = n → rest.Nodup → 0 < rest.length →
      ((drawsRandom b N sample shuffle rest (numCalls rest.length b)).flatten).Perm rest := by
  intro n
  induction n using Nat.strong_induction_on with
  | _ n ih =>
    intro rest hn hnd hpos
    by_cases hlt : b < rest.length
    · obtain ⟨hd1, hd2, hd3⟩ := hs rest hnd hlt
      have hrec : numCalls rest.length b = numCalls (rest.length - b) b + 1 :=
        numCalls_of_lt hb hlt
      have hperm : ((sample rest) ++
          rest.filter (fun x => !(sample rest).contains x)).Perm rest :=
        perm_drawn_append_filter hnd hd1 hd2
      have hlenf : (rest.filter (fun x => !(sample rest).contains x)).length
          = rest.length - b := by
        rw [length_filter_not_contains hnd hd1 hd2, hd3]
      have hstep : drawsRandom b N sample shuffle rest (numCalls rest.length b)
          = (sample rest) ::
            drawsRandom b N sample shuffle
              (rest.filter (fun x => !(sample rest).contains x))
              (numCalls (rest.length - b) b) := by
        rw [hrec]
        simp only [drawsRandom, selectRandom, if_pos hlt]
      rw [hstep]
      have hih := ih (rest.length - b) (by omega)
        (rest.filter (fun x => !(sample rest).contains x))
        hlenf (hnd.filter _) (by omega)
      rw [hlenf] at hih
      have hflat : ((sample rest) :: drawsRandom b N sample shuffle
              (rest.filter (fun x => !(sample rest).contains x))
              (numCalls (rest.length - b) b)).flatten
          = (sample rest) ++ (drawsRandom b N sample shuffle
              (rest.filter (fun x => !(sample rest).contains x))
              (numCalls (rest.length - b) b)).flatten := by simp
      rw [hflat]
      exact List.Perm.trans (List.Perm.append (List.Perm.refl _) hih) hperm
    · have h1 : numCalls rest.length b = 1 := numCalls_of_le hpos (by omega)
      rw [h1]
      have hunfold : drawsRandom b N sample shuffle rest 1
          = [(selectRandom b N sample shuffle rest).1] := rfl
      rw [hunfold]
      have hsel : (selectRandom b N sample shuffle rest).1 = shuffle rest := by
        simp only [selectRandom, if_neg hlt]
      rw [hsel]
      simpa using hsh rest

/-- The sorted branch's selection is the not-sorted branch's selection
with `random.sample` replaced by "take the first `b`" and the rollover
shuffle by the identity. -/
theorem drawsSorted_eq_drawsRandom (b N : Nat) :
    ∀ (k : Nat) (rest : List Nat),
      drawsSorted b N rest k = drawsRandom b N (fun r => r.take b) id rest k := by
  intro k
  induction k with
  | zero => intro rest; rfl
  | succ k ihk =>
    intro rest
    simp only [drawsSorted, drawsRandom, selectSorted, selectRandom]
    by_cases h : b < rest.length
    · simp only [if_pos h, ihk]
    · simp only [if_neg h, ihk, id]

end CtcAllLoad

namespace CtcAllLoad

/-- C1: with `num_gpu = 1`, repeatedly calling `next_batch` draws every
index in `[0, N)` exactly once per epoch before any repeat: over the
`⌈N/b⌉` calls of one epoch, the concatenation of the drawn index lists is
a permutation of `{0, ..., N-1}` (so their union is the full range and
each index is drawn exactly once) and the drawn lists are pairwise
disjoint.  This holds for the sorted branch and, for any valid
`random.sample` / `random.shuffle` oracles, for the not-sorted branch. -/
theorem C1_epoch_coverage (N b : Nat) (sample shuffle : List Nat → List Nat)
    (hN : 0 < N) (hb : 0 < b) (hbN : b ≤ N)
    (hsh : ∀ l : List Nat, (shuffle l).Perm l) (hs : SampleValid b sample) :
    ((drawsSorted b N (List.range N) (numCalls N b)).flatten).Perm (List.range N) ∧
    List.Pairwise List.Disjoint (drawsSorted b N (List.range N) (numCalls N b)) ∧
    ((drawsRandom b N sample shuffle (List.range N) (numCalls N b)).flatten).Perm
      (List.range N) ∧
    List.Pairwise List.Disjoint
      (drawsRandom b N sample shuffle (List.range N) (numCalls N b)) := by
  have hbN' : 0 < b ∧ b ≤ N := ⟨hb, hbN⟩
  have hlen : (List.range N).length = N := List.length_range N
  have hrand := drawsRandom_epoch_perm b N sample shuffle hb hsh hs N (List.range N)
    hlen (List.nodup_range N) (by rw [hlen]; exact hN)
  rw [hlen] at hrand
  have hsortR := drawsRandom_epoch_perm b N (fun r => r.take b) id hb
    (fun l => List.Perm.refl l) (take_sample_valid b) N (List.range N)
    hlen (List.nodup_range N) (by rw [hlen]; exact hN)
  rw [hlen] at hsortR
  have hsort : ((drawsSorted b N (List.range N) (numCalls N b)).flatten).Perm
      (List.range N) := by
    rw [drawsSorted_eq_drawsRandom]
    exact hsortR
  have disjOf : ∀ L : List (List Nat), (L.flatten).Perm (List.range N) →
      List.Pairwise List.Disjoint L := by
    intro L hL
    have hnd : L.flatten.Nodup := (hL.nodup_iff).mpr (List.nodup_range N)
    exact (List.nodup_flatten.mp hnd).2
  exact ⟨hsort, disjOf _ hsort, hrand, disjOf _ hrand⟩

/-- Witness for C1 at `N = 3`, `b = 2`, with the sample oracle taking the
first two pool elements and the identity shuffle. -/
theorem C1_epoch_coverage_witness :
    ((drawsSorted 2 3 (List.range 3) (numCalls 3 2)).flatten).Perm (List.range 3) ∧
    List.Pairwise List.Disjoint (drawsSorted 2 3 (List.range 3) (numCalls 3 2)) ∧
    ((drawsRandom 2 3 (fun r => r.take 2) id (List.range 3) (numCalls 3 2)).flatten).Perm
      (List.range 3) ∧
    List.Pairwise List.Disjoint
      (drawsRandom 2 3 (fun r => r.take 2) id (List.range 3) (numCalls 3 2)) :=
  C1_epoch_coverage 3 2 (fun r => r.take 2) id (by decide) (by decide) (by decide)
    (fun l => List.Perm.refl l) (take_sample_valid 2)

/-- After `k` full sorted-mode batches the pool is the original pool with
its first `k * b` elements dropped. -/
theorem restAfterSorted_eq_drop (b N : Nat) :
    ∀ (k : Nat) (r : List Nat), r.Nodup → k * b < r.length →
      restAfterSorted b N r k = r.drop (k * b) := by
  intro k
  induction k with
  | zero =>
    intro r _ _
    simp [restAfterSorted]
  | succ k ihk =>
    intro r hr hlt
    have hmul : (k + 1) * b = k * b + b := Nat.succ_mul k b
    have hb' : b < r.length := by omega
    have hsel : (selectSorted b N r).2.1 = r.drop b := by
      simp only [selectSorted, if_pos hb']
      exact filter_take_eq_drop hr b
    have hstep : restAfterSorted b N r (k + 1)
        = restAfterSorted b N ((selectSorted b N r).2.1) k := rfl
    rw [hstep, hsel, ihk (r.drop b) ((List.drop_sublist b r).nodup hr)
      (by rw [List.length_drop]; omega), List.drop_drop]
    congr 1
    omega

end CtcAllLoad

namespace CtcAllLoad

/-- C6: in sorted mode, across consecutive full (non-rollover) batches,
the pool after `k` calls is the original pool minus its first `k * b`
elements in unchanged relative order, the `(k+1)`-st call draws exactly
the next contiguous block of `b` indices of that order, removal leaves
the next contiguous tail, and the within-batch order actually used to
build the arrays is a permutation (the local shuffle) of that block. -/
theorem C6_sorted_contiguous_blocks (b k : Nat) (r : List Nat) (ds : Dataset)
    (shuffle : List Nat → List Nat) (hr : r.Nodup) (hb : 0 < b)
    (hfull : (k + 1) * b < r.length)
    (hds : ds.rest = restAfterSorted b ds.data_num r k)
    (hsh : ∀ l : List Nat, (shuffle l).Perm l) :
    ds.rest = r.drop (k * b) ∧
    (selectSorted b ds.data_num ds.rest).1 = (r.drop (k * b)).take b ∧
    (selectSorted b ds.data_num ds.rest).2.1 = r.drop ((k + 1) * b) ∧
    ((stepSorted ds b shuffle).idx).Perm ((r.drop (k * b)).take b) := by
  have hmul : (k + 1) * b = k * b + b := Nat.succ_mul k b
  have hkb : k * b < r.length := by omega
  have h1 : ds.rest = r.drop (k * b) := by
    rw [hds, restAfterSorted_eq_drop b ds.data_num k r hr hkb]
  have hlen : b < ds.rest.length := by
    rw [h1, List.length_drop]
    omega
  have h2 : (selectSorted b ds.data_num ds.rest).1 = ds.rest.take b := by
    simp only [selectSorted, if_pos hlen]
  have hnd' : ds.rest.Nodup := by
    rw [h1]
    exact (List.drop_sublist _ r).nodup hr
  have h3 : (selectSorted b ds.data_num ds.rest).2.1 = ds.rest.drop b := by
    simp only [selectSorted, if_pos hlen]
    exact filter_take_eq_drop hnd' b
  refine ⟨h1, by rw [h2, h1], ?_, ?_⟩
  · rw [h3, h1, List.drop_drop]
    congr 1
    omega
  · have hidx : (stepSorted ds b shuffle).idx
        = shuffle ((selectSorted b ds.data_num ds.rest).1) := rfl
    rw [hidx, h2, h1]
    exact hsh _

/-- A concrete iterator state for the C6 witness: pool after one full
batch of size 2 over six examples. -/
def dsC6 : Dataset :=
  { data_type := []
    batch_size := 2
    is_sorted := true
    num_gpu := 1
    input_size := 0
    input_list := []
    label_list := []
    input_paths := []
    data_num := 6
    rest := restAfterSorted 2 6 (List.range 6) 1 }

/-- Witness for C6 at `b = 2`, `k = 1`, pool `[0, ..., 5]`, identity
shuffle. -/
theorem C6_sorted_contiguous_blocks_witness :
    dsC6.rest = (List.range 6).drop (1 * 2) ∧
    (selectSorted 2 dsC6.data_num dsC6.rest).1 = ((List.range 6).drop (1 * 2)).take 2 ∧
    (selectSorted 2 dsC6.data_num dsC6.rest).2.1 = (List.range 6).drop ((1 + 1) * 2) ∧
    ((stepSorted dsC6 2 id).idx).Perm (((List.range 6).drop (1 * 2)).take 2) :=
  C6_sorted_contiguous_blocks 2 1 (List.range 6) dsC6 id (by decide) (by decide)
    (by decide) rfl (fun l => List.Perm.refl l)

end CtcAllLoad

namespace CtcAllLoad

/-- C7: the remaining pool is initialised to the full index range
`{0, ..., N-1}` at construction (line 57); it always stays a
duplicate-free subset of `[0, N)` under both selection branches; at an
epoch rollover (`next_epoch_flag = true`) it is reset to the full range;
and on a non-rollover call every drawn index is absent from the pool the
call leaves behind, so no example is drawn twice within one epoch. -/
theorem C7_pool_invariant (b N : Nat) (sample shuffle : List Nat → List Nat)
    (rest : List Nat) (dt : List Char) (bsz : Nat) (srt : Bool) (g F : Nat)
    (il : List (List (List Int))) (ll : List (List Int)) (ip : List (List Char))
    (hnd : rest.Nodup) (hsub : ∀ x ∈ rest, x < N) :
    (datasetBaseInit dt bsz srt g F il ll ip N).rest = List.range N ∧
    ((List.range N).Nodup ∧ ∀ x ∈ List.range N, x < N) ∧
    ((selectSorted b N rest).2.1.Nodup ∧
      (∀ x ∈ (selectSorted b N rest).2.1, x < N) ∧
      ((selectSorted b N rest).2.2 = true →
        (selectSorted b N rest).2.1 = List.range N) ∧
      ((selectSorted b N rest).2.2 = false →
        ∀ x ∈ (selectSorted b N rest).1, x ∉ (selectSorted b N rest).2.1)) ∧
    ((selectRandom b N sample shuffle rest).2.1.Nodup ∧
      (∀ x ∈ (selectRandom b N sample shuffle rest).2.1, x < N) ∧
      ((selectRandom b N sample shuffle rest).2.2 = true →
        (selectRandom b N sample shuffle rest).2.1 = List.range N) ∧
      ((selectRandom b N sample shuffle rest).2.2 = false →
        ∀ x ∈ (selectRandom b N sample shuffle rest).1,
          x ∉ (selectRandom b N sample shuffle rest).2.1)) := by
  refine ⟨rfl, ⟨List.nodup_range N, fun x hx => List.mem_range.mp hx⟩, ?_, ?_⟩
  · by_cases hlt : b < rest.length
    · have e : selectSorted b N rest
          = (rest.take b, rest.filter (fun x => !(rest.take b).contains x), false) := by
        simp only [selectSorted, if_pos hlt]
      rw [e]
      refine ⟨hnd.filter _, fun x hx => hsub x (List.mem_filter.mp hx).1,
        fun h => absurd h Bool.false_ne_true, fun _ x hx hx' => ?_⟩
      have h2 := (List.mem_filter.mp hx').2
      simp only [Bool.not_eq_true'] at h2
      exact absurd hx (by simpa using h2)
    · have e : selectSorted b N rest = (rest, List.range N, true) := by
        simp only [selectSorted, if_neg hlt]
      rw [e]
      exact ⟨List.nodup_range N, fun x hx => List.mem_range.mp hx,
        fun _ => rfl, fun h => absurd h (by decide : ¬ true = false)⟩
  · by_cases hlt : b < rest.length
    · have e : selectRandom b N sample shuffle rest
          = (sample rest, rest.filter (fun x => !(sample rest).contains x), false) := by
        simp only [selectRandom, if_pos hlt]
      rw [e]
      refine ⟨hnd.filter _, fun x hx => hsub x (List.mem_filter.mp hx).1,
        fun h => absurd h Bool.false_ne_true, fun _ x hx hx' => ?_⟩
      have h2 := (List.mem_filter.mp hx').2
      simp only [Bool.not_eq_true'] at h2
      exact absurd hx (by simpa using h2)
    · have e : selectRandom b N sample shuffle rest = (shuffle rest, List.range N, true) := by
        simp only [selectRandom, if_neg hlt]
      rw [e]
      exact ⟨List.nodup_range N, fun x hx => List.mem_range.mp hx,
        fun _ => rfl, fun h => absurd h (by decide : ¬ true = false)⟩

/-- Witness for C7 at `b = 2`, `N = 3`, pool `[0, 1, 2]`. -/
theorem C7_pool_invariant_witness :
    (datasetBaseInit [] 2 true 1 0 [] [] [] 3).rest = List.range 3 ∧
    ((List.range 3).Nodup ∧ ∀ x ∈ List.range 3, x < 3) ∧
    ((selectSorted 2 3 [0, 1, 2]).2.1.Nodup ∧
      (∀ x ∈ (selectSorted 2 3 [0, 1, 2]).2.1, x < 3) ∧
      ((selectSorted 2 3 [0, 1, 2]).2.2 = true →
        (selectSorted 2 3 [0, 1, 2]).2.1 = List.range 3) ∧
      ((selectSorted 2 3 [0, 1, 2]).2.2 = false →
        ∀ x ∈ (selectSorted 2 3 [0, 1, 2]).1, x ∉ (selectSorted 2 3 [0, 1, 2]).2.1)) ∧
    ((selectRandom 2 3 id id [0, 1, 2]).2.1.Nodup ∧
      (∀ x ∈ (selectRandom 2 3 id id [0, 1, 2]).2.1, x < 3) ∧
      ((selectRandom 2 3 id id [0, 1, 2]).2.2 = true →
        (selectRandom 2 3 id id [0, 1, 2]).2.1 = List.range 3) ∧
      ((selectRandom 2 3 id id [0, 1, 2]).2.2 = false →
        ∀ x ∈ (selectRandom 2 3 id id [0, 1, 2]).1,
          x ∉ (selectRandom 2 3 id id [0, 1, 2]).2.1)) :=
  C7_pool_invariant 2 3 id id [0, 1, 2] [] 2 true 1 0 [] [] []
    (by decide) (by decide)

end CtcAllLoad

namespace CtcAllLoad

/-- C5: a call with `num_gpu > 1` and no session fails immediately with
the `ValueError` (lines 72-73) — the returned value is only the error, so
no batch is produced and no updated pool is handed back; with
`num_gpu = 1` no session is required and the call always succeeds. -/
theorem C5_session_check (ds : Dataset) (bs : Option Nat)
    (sample shuffle : List Nat → List Nat) :
    (1 < ds.num_gpu →
      nextBatchStep ds bs none sample shuffle
        = Except.error "Set session when using multiple GPUs.") ∧
    (ds.num_gpu = 1 →
      ∀ session : Option Unit,
        (nextBatchStep ds bs session sample shuffle).isOk = true) := by
  constructor
  · intro hg
    have hne : ds.num_gpu ≠ 1 := by omega
    simp [nextBatchStep, hne]
  · intro hg session
    simp [nextBatchStep, hg, Except.isOk, Except.toBool]

/-- A two-GPU iterator state for the C5 witness. -/
def dsC5gpu2 : Dataset :=
  { data_type := []
    batch_size := 2
    is_sorted := true
    num_gpu := 2
    input_size := 1
    input_list := [[[0]], [[0]]]
    label_list := [[0], [0]]
    input_paths := [['a'], ['b']]
    data_num := 2
    rest := [0, 1] }

/-- A single-GPU iterator state for the C5 witness. -/
def dsC5gpu1 : Dataset :=
  { dsC5gpu2 with num_gpu := 1 }

/-- Witness for C5: the two-GPU state without a session errors; the
single-GPU state without a session succeeds. -/
theorem C5_session_check_witness :
    nextBatchStep dsC5gpu2 none none id id
      = Except.error "Set session when using multiple GPUs." ∧
    (nextBatchStep dsC5gpu1 none none id id).isOk = true :=
  ⟨(C5_session_check dsC5gpu2 none id id).1 (by decide),
   (C5_session_check dsC5gpu1 none id id).2 (by decide) none⟩

end CtcAllLoad

namespace CtcAllLoad

/-- Padding shape of one collated batch: at every batch position the
input row's prefix up to the true frame count is the true frames, later
rows up to the padded length are zero rows; the label row's prefix is the
true label sequence, later entries are the sentinel `-1`. -/
theorem makeBatch_padding (ds : Dataset) (idx : List Nat) (maxT maxL : Nat)
    {i : Nat} (hi : i < idx.length) :
    ((makeBatch ds idx maxT maxL).inputs.getD i []).take
        (ds.input_list.getD (idx.getD i 0) []).length
      = ds.input_list.getD (idx.getD i 0) [] ∧
    (∀ t, (ds.input_list.getD (idx.getD i 0) []).length ≤ t →
      t < ((makeBatch ds idx maxT maxL).inputs.getD i []).length →
      ((makeBatch ds idx maxT maxL).inputs.getD i []).getD t []
        = List.replicate ds.input_size 0) ∧
    ((makeBatch ds idx maxT maxL).labels.getD i []).take
        (ds.label_list.getD (idx.getD i 0) []).length
      = ds.label_list.getD (idx.getD i 0) [] ∧
    (∀ j, (ds.label_list.getD (idx.getD i 0) []).length ≤ j →
      j < ((makeBatch ds idx maxT maxL).labels.getD i []).length →
      ((makeBatch ds idx maxT maxL).labels.getD i []).getD j 0 = -1) := by
  have hrow : (makeBatch ds idx maxT maxL).inputs.getD i []
      = padFrames (ds.input_list.getD (idx.getD i 0) []) maxT ds.input_size := by
    show (idx.map _).getD i [] = _
    rw [getD_map_of_lt _ idx hi 0 []]
  have hlab : (makeBatch ds idx maxT maxL).labels.getD i []
      = padLabels (ds.label_list.getD (idx.getD i 0) []) maxL := by
    show (idx.map _).getD i [] = _
    rw [getD_map_of_lt _ idx hi 0 []]
  rw [hrow, hlab]
  exact ⟨padFrames_take _ _ _, fun t h1 h2 => padFrames_getD h1 h2,
    padLabels_take _ _, fun j h1 h2 => padLabels_getD h1 h2⟩

/-- C2: in every mini-batch produced by either branch of the generator
body, each input row agrees with the example's true frames up to its true
input length and is the zero row at every later position of the padded
row, and each label row agrees with the example's true labels up to its
true label length and is the sentinel `-1` at every later position. -/
theorem C2_padding (ds : Dataset) (b : Nat) (sample shuffle : List Nat → List Nat)
    (out : StepOut)
    (hout : out = stepSorted ds b shuffle ∨ out = stepRandom ds b sample shuffle)
    {i : Nat} (hi : i < out.idx.length) :
    ((out.batch.inputs.getD i []).take
        (ds.input_list.getD (out.idx.getD i 0) []).length
      = ds.input_list.getD (out.idx.getD i 0) []) ∧
    (∀ t, (ds.input_list.getD (out.idx.getD i 0) []).length ≤ t →
      t < (out.batch.inputs.getD i []).length →
      (out.batch.inputs.getD i []).getD t [] = List.replicate ds.input_size 0) ∧
    ((out.batch.labels.getD i []).take
        (ds.label_list.getD (out.idx.getD i 0) []).length
      = ds.label_list.getD (out.idx.getD i 0) []) ∧
    (∀ j, (ds.label_list.getD (out.idx.getD i 0) []).length ≤ j →
      j < (out.batch.labels.getD i []).length →
      (out.batch.labels.getD i []).getD j 0 = -1) := by
  rcases hout with rfl | rfl
  · exact makeBatch_padding ds _ _ _ hi
  · exact makeBatch_padding ds _ _ _ hi

/-- A concrete two-example dataset for the C2 witness. -/
def dsC2 : Dataset :=
  { data_type := ['t']
    batch_size := 1
    is_sorted := true
    num_gpu := 1
    input_size := 2
    input_list := [[[1, 2]], [[3, 4], [5, 6]]]
    label_list := [[7], [8, 9]]
    input_paths := [['a'], ['b']]
    data_num := 2
    rest := [0, 1] }

/-- Witness for C2 at the sorted branch, batch position 0. -/
theorem C2_padding_witness :
    (((stepSorted dsC2 1 id).batch.inputs.getD 0 []).take
        (dsC2.input_list.getD ((stepSorted dsC2 1 id).idx.getD 0 0) []).length
      = dsC2.input_list.getD ((stepSorted dsC2 1 id).idx.getD 0 0) []) ∧
    (∀ t, (dsC2.input_list.getD ((stepSorted dsC2 1 id).idx.getD 0 0) []).length ≤ t →
      t < ((stepSorted dsC2 1 id).batch.inputs.getD 0 []).length →
      ((stepSorted dsC2 1 id).batch.inputs.getD 0 []).getD t []
        = List.replicate dsC2.input_size 0) ∧
    (((stepSorted dsC2 1 id).batch.labels.getD 0 []).take
        (dsC2.label_list.getD ((stepSorted dsC2 1 id).idx.getD 0 0) []).length
      = dsC2.label_list.getD ((stepSorted dsC2 1 id).idx.getD 0 0) []) ∧
    (∀ j, (dsC2.label_list.getD ((stepSorted dsC2 1 id).idx.getD 0 0) []).length ≤ j →
      j < ((stepSorted dsC2 1 id).batch.labels.getD 0 []).length →
      ((stepSorted dsC2 1 id).batch.labels.getD 0 []).getD j 0 = -1) :=
  C2_padding dsC2 1 id id (stepSorted dsC2 1 id) (Or.inl rfl) (by decide)

end CtcAllLoad

namespace CtcAllLoad

theorem le_getLast_of_sorted : ∀ {l : List Nat}, l.Sorted (· ≤ ·) →
    ∀ (h : l ≠ []) (x : Nat), x ∈ l → x ≤ l.getLast h := by
  intro l
  induction l with
  | nil => intro _ h; exact absurd rfl h
  | cons a t ih =>
    intro hs h x hx
    cases t with
    | nil =>
      have : x = a := by simpa using hx
      subst this
      rfl
    | cons bb t' =>
      rw [List.getLast_cons (List.cons_ne_nil bb t')]
      rcases List.mem_cons.mp hx with rfl | hx'
      · exact (List.sorted_cons.mp hs).1 _ (List.getLast_mem _)
      · exact ih (List.sorted_cons.mp hs).2 (List.cons_ne_nil bb t') x hx'

theorem getLastD_of_ne_nil {l : List Nat} (h : l ≠ []) (d : Nat) :
    l.getLastD d = l.getLast h := by
  rw [List.getLastD_eq_getLast?, List.getLast?_eq_getLast_of_ne_nil h]
  rfl

theorem getD_mem_of_lt {l : List Nat} {i : Nat} (h : i < l.length) (d : Nat) :
    l.getD i d ∈ l := by
  rw [List.getD_eq_getElem?_getD, List.getElem?_eq_getElem h]
  exact List.getElem_mem h

/-- In sorted mode the code's `max_frame_num` (line 97, the frame count of
the *last* drawn index) equals the true maximum frame count among the
drawn examples, provided the drawn indices are ascending and the dataset
is globally ordered by frame count. -/
theorem maxFrameNumSorted_eq_listMax (ds : Dataset) {idx : List Nat}
    (hne : idx ≠ []) (hsorted : idx.Sorted (· ≤ ·))
    (hlt : ∀ x ∈ idx, x < ds.data_num)
    (hmono : ∀ j, j < ds.data_num → ∀ i, i ≤ j →
      (ds.input_list.getD i []).length ≤ (ds.input_list.getD j []).length) :
    maxFrameNumSorted ds idx
      = listMax (idx.map (fun x => (ds.input_list.getD x []).length)) := by
  have hyD : idx.getLastD 0 = idx.getLast hne := getLastD_of_ne_nil hne 0
  have hymem : idx.getLast hne ∈ idx := List.getLast_mem hne
  unfold maxFrameNumSorted
  rw [hyD]
  apply Nat.le_antisymm
  · exact le_listMax_of_mem (List.mem_map_of_mem _ hymem)
  · apply listMax_le
    intro v hv
    obtain ⟨x, hx, rfl⟩ := List.mem_map.mp hv
    exact hmono (idx.getLast hne) (hlt _ hymem) x (le_getLast_of_sorted hsorted hne x hx)

/-- If the padding widths dominate the drawn examples' true lengths, then
every row of the collated arrays has exactly the padded dimensions. -/
theorem makeBatch_row_lengths (ds : Dataset) (idx : List Nat) (maxT maxL : Nat)
    (hT : ∀ x ∈ idx, (ds.input_list.getD x []).length ≤ maxT)
    (hL : ∀ x ∈ idx, (ds.label_list.getD x []).length ≤ maxL) :
    (∀ i, i < (makeBatch ds idx maxT maxL).inputs.length →
      ((makeBatch ds idx maxT maxL).inputs.getD i []).length = maxT) ∧
    (∀ i, i < (makeBatch ds idx maxT maxL).labels.length →
      ((makeBatch ds idx maxT maxL).labels.getD i []).length = maxL) := by
  constructor
  · intro i hi
    have hi' : i < idx.length := by simpa [makeBatch] using hi
    have hrow : (makeBatch ds idx maxT maxL).inputs.getD i []
        = padFrames (ds.input_list.getD (idx.getD i 0) []) maxT ds.input_size := by
      show (idx.map _).getD i [] = _
      rw [getD_map_of_lt _ idx hi' 0 []]
    rw [hrow]
    exact padFrames_length (hT _ (getD_mem_of_lt hi' 0))
  · intro i hi
    have hi' : i < idx.length := by simpa [makeBatch] using hi
    have hrow : (makeBatch ds idx maxT maxL).labels.getD i []
        = padLabels (ds.label_list.getD (idx.getD i 0) []) maxL := by
      show (idx.map _).getD i [] = _
      rw [getD_map_of_lt _ idx hi' 0 []]
    rw [hrow]
    exact padLabels_length (hL _ (getD_mem_of_lt hi' 0))

end CtcAllLoad

namespace CtcAllLoad

/-- C3: in every produced mini-batch the padded time dimension equals the
maximum true input length among the drawn examples and the padded label
width equals the maximum true label length among them: the sorted
branch's `max_frame_num` (last drawn index) equals the true maximum under
the global-sortedness precondition, and every collated row then has
exactly those dimensions; the not-sorted branch computes the true maxima
directly; and for a batch of a single example both maxima are that
example's own lengths. -/
theorem C3_max_dims (ds : Dataset) (b : Nat) (sample shuffle : List Nat → List Nat)
    (hb : 0 < b) (hne : ds.rest ≠ []) (hsorted : ds.rest.Sorted (· ≤ ·))
    (hlt : ∀ x ∈ ds.rest, x < ds.data_num)
    (hmono : ∀ j, j < ds.data_num → ∀ i, i ≤ j →
      (ds.input_list.getD i []).length ≤ (ds.input_list.getD j []).length)
    (hsh : ∀ l : List Nat, (shuffle l).Perm l) :
    (maxFrameNumSorted ds (selectSorted b ds.data_num ds.rest).1
      = listMax ((selectSorted b ds.data_num ds.rest).1.map
          (fun x => (ds.input_list.getD x []).length))) ∧
    (maxSeqLen ds (selectSorted b ds.data_num ds.rest).1
      = listMax ((selectSorted b ds.data_num ds.rest).1.map
          (fun x => (ds.label_list.getD x []).length))) ∧
    (∀ i, i < (stepSorted ds b shuffle).batch.inputs.length →
      ((stepSorted ds b shuffle).batch.inputs.getD i []).length
        = listMax ((selectSorted b ds.data_num ds.rest).1.map
            (fun x => (ds.input_list.getD x []).length))) ∧
    (∀ i, i < (stepSorted ds b shuffle).batch.labels.length →
      ((stepSorted ds b shuffle).batch.labels.getD i []).length
        = listMax ((selectSorted b ds.data_num ds.rest).1.map
            (fun x => (ds.label_list.getD x []).length))) ∧
    (maxFrameNumRandom ds (stepRandom ds b sample shuffle).idx
      = listMax ((stepRandom ds b sample shuffle).idx.map
          (fun x => (ds.input_list.getD x []).length))) ∧
    (∀ i, i < (stepRandom ds b sample shuffle).batch.inputs.length →
      ((stepRandom ds b sample shuffle).batch.inputs.getD i []).length
        = listMax ((stepRandom ds b sample shuffle).idx.map
            (fun x => (ds.input_list.getD x []).length))) ∧
    (∀ i, i < (stepRandom ds b sample shuffle).batch.labels.length →
      ((stepRandom ds b sample shuffle).batch.labels.getD i []).length
        = listMax ((stepRandom ds b sample shuffle).idx.map
            (fun x => (ds.label_list.getD x []).length))) ∧
    (∀ x : Nat, maxFrameNumSorted ds [x] = (ds.input_list.getD x []).length ∧
      maxSeqLen ds [x] = (ds.label_list.getD x []).length) := by
  have hdrawn : (selectSorted b ds.data_num ds.rest).1 ≠ [] ∧
      (selectSorted b ds.data_num ds.rest).1.Sorted (· ≤ ·) ∧
      (∀ x ∈ (selectSorted b ds.data_num ds.rest).1, x ∈ ds.rest) := by
    by_cases hl : b < ds.rest.length
    · have e : (selectSorted b ds.data_num ds.rest).1 = ds.rest.take b := by
        simp only [selectSorted, if_pos hl]
      rw [e]
      refine ⟨?_, List.Pairwise.sublist (List.take_sublist b ds.rest) hsorted,
        fun x hx => (List.take_sublist b ds.rest).mem hx⟩
      have : (ds.rest.take b).length = b := by
        rw [List.length_take]
        omega
      intro hcon
      rw [hcon] at this
      simp at this
      omega
    · have e : (selectSorted b ds.data_num ds.rest).1 = ds.rest := by
        simp only [selectSorted, if_neg hl]
      rw [e]
      exact ⟨hne, hsorted, fun x hx => hx⟩
  obtain ⟨hdne, hdsorted, hdsub⟩ := hdrawn
  have h1 : maxFrameNumSorted ds (selectSorted b ds.data_num ds.rest).1
      = listMax ((selectSorted b ds.data_num ds.rest).1.map
          (fun x => (ds.input_list.getD x []).length)) :=
    maxFrameNumSorted_eq_listMax ds hdne hdsorted (fun x hx => hlt x (hdsub x hx)) hmono
  have hmemT : ∀ x ∈ shuffle (selectSorted b ds.data_num ds.rest).1,
      (ds.input_list.getD x []).length
        ≤ maxFrameNumSorted ds (selectSorted b ds.data_num ds.rest).1 := by
    intro x hx
    rw [h1]
    exact le_listMax_of_mem (List.mem_map_of_mem _ ((hsh _).mem_iff.mp hx))
  have hmemL : ∀ x ∈ shuffle (selectSorted b ds.data_num ds.rest).1,
      (ds.label_list.getD x []).length
        ≤ maxSeqLen ds (selectSorted b ds.data_num ds.rest).1 := by
    intro x hx
    exact le_listMax_of_mem (List.mem_map_of_mem _ ((hsh _).mem_iff.mp hx))
  have hrowsS := makeBatch_row_lengths ds (shuffle (selectSorted b ds.data_num ds.rest).1)
    (maxFrameNumSorted ds (selectSorted b ds.data_num ds.rest).1)
    (maxSeqLen ds (selectSorted b ds.data_num ds.rest).1) hmemT hmemL
  have hrowsR := makeBatch_row_lengths ds
    ((selectRandom b ds.data_num sample shuffle ds.rest).1)
    (maxFrameNumRandom ds (selectRandom b ds.data_num sample shuffle ds.rest).1)
    (maxSeqLen ds (selectRandom b ds.data_num sample shuffle ds.rest).1)
    (fun x hx => le_listMax_of_mem (List.mem_map_of_mem _ hx))
    (fun x hx => le_listMax_of_mem (List.mem_map_of_mem _ hx))
  have hbS : (stepSorted ds b shuffle).batch
      = makeBatch ds (shuffle (selectSorted b ds.data_num ds.rest).1)
          (maxFrameNumSorted ds (selectSorted b ds.data_num ds.rest).1)
          (maxSeqLen ds (selectSorted b ds.data_num ds.rest).1) := rfl
  have hbR : (stepRandom ds b sample shuffle).batch
      = makeBatch ds ((selectRandom b ds.data_num sample shuffle ds.rest).1)
          (maxFrameNumRandom ds (selectRandom b ds.data_num sample shuffle ds.rest).1)
          (maxSeqLen ds (selectRandom b ds.data_num sample shuffle ds.rest).1) := rfl
  have hiR : (stepRandom ds b sample shuffle).idx
      = (selectRandom b ds.data_num sample shuffle ds.rest).1 := rfl
  refine ⟨h1, rfl, ?_, ?_, ?_, ?_, ?_, ?_⟩
  · intro i hi
    rw [hbS] at hi ⊢
    rw [(hrowsS.1 i hi), h1]
  · intro i hi
    rw [hbS] at hi ⊢
    exact hrowsS.2 i hi
  · rw [hiR]
    rfl
  · intro i hi
    rw [hbR] at hi ⊢
    rw [hiR]
    exact hrowsR.1 i hi
  · intro i hi
    rw [hbR] at hi ⊢
    rw [hiR]
    exact hrowsR.2 i hi
  · intro x
    refine ⟨rfl, ?_⟩
    simp [maxSeqLen, listMax]

end CtcAllLoad

namespace CtcAllLoad

/-- A concrete length-sorted two-example dataset for the C3 witness. -/
def dsC3 : Dataset :=
  { data_type := ['t']
    batch_size := 1
    is_sorted := true
    num_gpu := 1
    input_size := 1
    input_list := [[[1]], [[2], [3]]]
    label_list := [[5], [6, 7]]
    input_paths := [['a'], ['b']]
    data_num := 2
    rest := [0, 1] }

/-- Witness for C3: the sorted-branch `max_frame_num` equals the true
maximum frame count on a concrete sorted dataset. -/
theorem C3_max_dims_witness :
    maxFrameNumSorted dsC3 (selectSorted 1 dsC3.data_num dsC3.rest).1
      = listMax ((selectSorted 1 dsC3.data_num dsC3.rest).1.map
          (fun x => (dsC3.input_list.getD x []).length)) :=
  (C3_max_dims dsC3 1 id id (by decide) (by decide) (by decide) (by decide)
    (by decide) (fun l => List.Perm.refl l)).1

/-- `tf.split` on a batch axis its split count divides: the count is the
number of shards and every shard has the equal size. -/
theorem tfSplit_eq_some {α : Type} (l : List α) (n : Nat) (hn : 0 < n)
    (hdvd : n ∣ l.length) :
    ∃ c, tfSplit l n = some c ∧ c.length = n ∧
      ∀ s ∈ c, s.length = l.length / n := by
  have hmod : l.length % n = 0 := Nat.mod_eq_zero_of_dvd hdvd
  refine ⟨_, by rw [tfSplit, if_pos ⟨hn, hmod⟩], by simp, ?_⟩
  intro s hs
  simp only [List.mem_map, List.mem_range] at hs
  obtain ⟨i, hi, rfl⟩ := hs
  rw [List.length_take, List.length_drop]
  have hmul : n * (l.length / n) = l.length := Nat.mul_div_cancel' hdvd
  have hle : (i + 1) * (l.length / n) ≤ n * (l.length / n) :=
    Nat.mul_le_mul_right _ hi
  have : (i + 1) * (l.length / n) = i * (l.length / n) + l.length / n :=
    Nat.succ_mul i _
  omega

end CtcAllLoad

namespace CtcAllLoad

/-- C8: on a full (non-rollover) batch in sharded mode with
`num_gpu = g` dividing the batch length `B`, the split count is exactly
`g`, all four arrays are split into the same number `g` of shards, and
every shard of every array has size `B / g`. -/
theorem C8_full_batch_shards (ds : Dataset) (idx : List Nat) (maxT maxL : Nat)
    (g B restLen : Nat) (hg : 0 < g) (hlen : idx.length = B) (hdvd : g ∣ B) :
    ∃ sb : SplitBatch,
      gpuSplit g restLen false (makeBatch ds idx maxT maxL) = some sb ∧
      sb.inputs.length = g ∧ sb.labels.length = g ∧
      sb.inputs_seq_len.length = g ∧ sb.input_names.length = g ∧
      (∀ s ∈ sb.inputs, s.length = B / g) ∧
      (∀ s ∈ sb.labels, s.length = B / g) ∧
      (∀ s ∈ sb.inputs_seq_len, s.length = B / g) ∧
      (∀ s ∈ sb.input_names, s.length = B / g) := by
  have l1 : (makeBatch ds idx maxT maxL).inputs.length = B := by
    simp [makeBatch, hlen]
  have l2 : (makeBatch ds idx maxT maxL).labels.length = B := by
    simp [makeBatch, hlen]
  have l3 : (makeBatch ds idx maxT maxL).inputs_seq_len.length = B := by
    simp [makeBatch, hlen]
  have l4 : (makeBatch ds idx maxT maxL).input_names.length = B := by
    simp [makeBatch, hlen]
  obtain ⟨c1, hc1, hl1, hs1⟩ := tfSplit_eq_some (makeBatch ds idx maxT maxL).inputs g hg
    (by rw [l1]; exact hdvd)
  obtain ⟨c2, hc2, hl2, hs2⟩ := tfSplit_eq_some (makeBatch ds idx maxT maxL).labels g hg
    (by rw [l2]; exact hdvd)
  obtain ⟨c3, hc3, hl3, hs3⟩ := tfSplit_eq_some (makeBatch ds idx maxT maxL).inputs_seq_len
    g hg (by rw [l3]; exact hdvd)
  obtain ⟨c4, hc4, hl4, hs4⟩ := tfSplit_eq_some (makeBatch ds idx maxT maxL).input_names
    g hg (by rw [l4]; exact hdvd)
  refine ⟨⟨c1, c2, c3, c4⟩, ?_, hl1, hl2, hl3, hl4, ?_, ?_, ?_, ?_⟩
  · simp [gpuSplit, hc1, hc2, hc3, hc4]
  · intro s hs
    rw [hs1 s hs, l1]
  · intro s hs
    rw [hs2 s hs, l2]
  · intro s hs
    rw [hs3 s hs, l3]
  · intro s hs
    rw [hs4 s hs, l4]

/-- A concrete dataset for the C8 witness. -/
def dsC8 : Dataset :=
  { data_type := ['t']
    batch_size := 2
    is_sorted := true
    num_gpu := 2
    input_size := 1
    input_list := [[[1]], [[2]]]
    label_list := [[0], [1]]
    input_paths := [['a'], ['b']]
    data_num := 2
    rest := [0, 1] }

/-- Witness for C8 at `g = 2`, `B = 2`. -/
theorem C8_full_batch_shards_witness :
    ∃ sb : SplitBatch,
      gpuSplit 2 0 false (makeBatch dsC8 [0, 1] 1 1) = some sb ∧
      sb.inputs.length = 2 ∧ sb.labels.length = 2 ∧
      sb.inputs_seq_len.length = 2 ∧ sb.input_names.length = 2 ∧
      (∀ s ∈ sb.inputs, s.length = 2 / 2) ∧
      (∀ s ∈ sb.labels, s.length = 2 / 2) ∧
      (∀ s ∈ sb.inputs_seq_len, s.length = 2 / 2) ∧
      (∀ s ∈ sb.input_names, s.length = 2 / 2) :=
  C8_full_batch_shards dsC8 [0, 1] 1 1 2 2 0 (by decide) (by decide) (by decide)

end CtcAllLoad

namespace CtcAllLoad

theorem splitOnChar_ne_nil (c : Char) : ∀ l : List Char, splitOnChar c l ≠ [] := by
  intro l
  cases l with
  | nil => simp [splitOnChar]
  | cons x xs =>
    simp only [splitOnChar]
    by_cases hx : x = c
    · simp [hx]
    · simp [hx]

/-- Python `sep.join`: the inverse direction of `splitOnChar`. -/
def joinWithChar (c : Char) : List (List Char) → List Char
  | [] => []
  | [x] => x
  | x :: y :: ys => x ++ c :: joinWithChar c (y :: ys)

theorem joinWithChar_splitOnChar (c : Char) : ∀ l : List Char,
    joinWithChar c (splitOnChar c l) = l := by
  intro l
  induction l with
  | nil => rfl
  | cons x xs ih =>
    simp only [splitOnChar]
    by_cases hx : x = c
    · subst hx
      rw [if_pos rfl]
      cases hsp : splitOnChar x xs with
      | nil => exact absurd hsp (splitOnChar_ne_nil x xs)
      | cons h t =>
        rw [hsp] at ih
        show [] ++ x :: joinWithChar x (h :: t) = x :: xs
        rw [List.nil_append, ih]
    · rw [if_neg hx]
      cases hsp : splitOnChar c xs with
      | nil => exact absurd hsp (splitOnChar_ne_nil c xs)
      | cons h t =>
        rw [hsp] at ih
        cases t with
        | nil =>
          show x :: h = x :: xs
          simp only [joinWithChar] at ih
          rw [ih]
        | cons h2 t2 =>
          show (x :: h) ++ c :: joinWithChar c (h2 :: t2) = x :: xs
          simp only [joinWithChar] at ih
          rw [List.cons_append, ih]

theorem length_splitOnChar (c : Char) : ∀ l : List Char,
    (splitOnChar c l).length = l.count c + 1 := by
  intro l
  induction l with
  | nil => simp [splitOnChar]
  | cons x xs ih =>
    simp only [splitOnChar]
    by_cases hx : x = c
    · subst hx
      rw [if_pos rfl]
      simp [List.count_cons, ih]
    · rw [if_neg hx]
      cases hsp : splitOnChar c xs with
      | nil => exact absurd hsp (splitOnChar_ne_nil c xs)
      | cons h t =>
        rw [hsp] at ih
        simp only [List.length_cons, List.tail_cons] at ih ⊢
        have hcount : (x :: xs).count c = xs.count c := by
          simp [List.count_cons, hx, Ne.symm hx]
        rw [hcount]
        omega

/-- The name derivation as the claim states it (spec: "derive the
example's display name by stripping its file extension from its base
path"): the base name minus its final dot-suffix. -/
def stripExtName (p : List Char) : List Char :=
  let base := osPathBasename p
  let parts := splitOnChar '.' base
  if parts.length ≤ 1 then base else joinWithChar '.' parts.dropLast

theorem inputName_eq_stripExtName {p : List Char}
    (h : (osPathBasename p).count '.' ≤ 1) : inputName p = stripExtName p := by
  unfold inputName stripExtName
  have hlen := length_splitOnChar '.' (osPathBasename p)
  have hj := joinWithChar_splitOnChar '.' (osPathBasename p)
  cases hsp : splitOnChar '.' (osPathBasename p) with
  | nil => exact absurd hsp (splitOnChar_ne_nil _ _)
  | cons a t =>
    rw [hsp] at hlen hj
    cases t with
    | nil =>
      simp only [joinWithChar] at hj
      show _ = if (splitOnChar '.' (osPathBasename p)).length ≤ 1
          then osPathBasename p
          else joinWithChar '.' (splitOnChar '.' (osPathBasename p)).dropLast
      rw [hsp]
      simp [hj]
    | cons a2 t2 =>
      have ht2 : t2 = [] := by
        simp only [List.length_cons] at hlen
        have : t2.length = 0 := by omega
        exact List.length_eq_zero.mp this
      subst ht2
      show _ = if (splitOnChar '.' (osPathBasename p)).length ≤ 1
          then osPathBasename p
          else joinWithChar '.' (splitOnChar '.' (osPathBasename p)).dropLast
      rw [hsp]
      simp [joinWithChar]

end CtcAllLoad

namespace CtcAllLoad

/-- A one-example dataset whose input path has two dots in its base name,
for the C9 counterexample. -/
def dsC9 : Dataset :=
  { data_type := ['t']
    batch_size := 1
    is_sorted := true
    num_gpu := 1
    input_size := 1
    input_list := [[[0]]]
    label_list := [[0]]
    input_paths := [['d', 'i', 'r', '/', 'a', '.', 'b', '.', 'w', 'a', 'v']]
    data_num := 1
    rest := [0] }

/-- C9 counterexample: for the input path `dir/a.b.wav` the produced name
entry is `a` (the part of the base name before the *first* dot), while
the base name with its file extension stripped is `a.b`, so the name does
not equal the base name minus its extension. -/
theorem C9_counterexample_first_dot :
    (stepSorted dsC9 1 id).batch.input_names = [['a']] ∧
    stripExtName ['d', 'i', 'r', '/', 'a', '.', 'b', '.', 'w', 'a', 'v']
      = ['a', '.', 'b'] ∧
    (stepSorted dsC9 1 id).batch.input_names
      ≠ [stripExtName ['d', 'i', 'r', '/', 'a', '.', 'b', '.', 'w', 'a', 'v']] := by
  refine ⟨rfl, rfl, ?_⟩
  decide

/-- C9 amended: every name entry of a produced batch equals the part of
the example's base name before the *first* dot (`basename(p).split('.')[0]`),
which coincides with the claim's "base name with its extension stripped"
exactly when the base name contains at most one dot. -/
theorem C9_amended_first_dot_name (ds : Dataset) (idx : List Nat) (maxT maxL : Nat)
    {i : Nat} (hi : i < idx.length) :
    (makeBatch ds idx maxT maxL).input_names.getD i []
      = inputName (ds.input_paths.getD (idx.getD i 0) []) ∧
    ((osPathBasename (ds.input_paths.getD (idx.getD i 0) [])).count '.' ≤ 1 →
      (makeBatch ds idx maxT maxL).input_names.getD i []
        = stripExtName (ds.input_paths.getD (idx.getD i 0) [])) := by
  have hname : (makeBatch ds idx maxT maxL).input_names.getD i []
      = inputName (ds.input_paths.getD (idx.getD i 0) []) := by
    show (idx.map _).getD i [] = _
    rw [getD_map_of_lt _ idx hi 0 []]
  exact ⟨hname, fun hc => by rw [hname, inputName_eq_stripExtName hc]⟩

/-- A one-example dataset whose input path has a single dot, for the C9
amended witness. -/
def dsC9w : Dataset :=
  { dsC9 with input_paths := [['d', '/', 'a', '.', 'w']] }

/-- Witness for the amended C9 on the path `d/a.w`. -/
theorem C9_amended_first_dot_name_witness :
    (makeBatch dsC9w [0] 1 1).input_names.getD 0 []
      = inputName (dsC9w.input_paths.getD ([0].getD 0 0) []) ∧
    ((osPathBasename (dsC9w.input_paths.getD ([0].getD 0 0) [])).count '.' ≤ 1 →
      (makeBatch dsC9w [0] 1 1).input_names.getD 0 []
        = stripExtName (dsC9w.input_paths.getD ([0].getD 0 0) [])) :=
  C9_amended_first_dot_name dsC9w [0] 1 1 (by decide)

end CtcAllLoad

namespace CtcAllLoad

/-- A ten-example length-sorted dataset with `num_gpu = 3` and per-GPU
batch size 1 (stored batch size 3), reached through the constructor. -/
def dsC4 : Dataset :=
  datasetBaseInit ['t', 'r', 'a', 'i', 'n'] 1 true 3 1
    ((List.range 10).map (fun i => List.replicate (i + 1) [0]))
    ((List.range 10).map (fun _ => [0]))
    ((List.range 10).map (fun _ => ['a']))
    10

/-- The state after a successful call; unchanged on an error. -/
def stateAfter (r : Except String (Dataset × BatchOut)) (d : Dataset) : Dataset :=
  match r with
  | .ok (ds, _) => ds
  | .error _ => d

/-- `dsC4` after one full batch. -/
def dsC4a : Dataset := stateAfter (nextBatchStep dsC4 none (some ()) id id) dsC4

/-- `dsC4` after two full batches. -/
def dsC4b : Dataset := stateAfter (nextBatchStep dsC4a none (some ()) id id) dsC4a

/-- `dsC4` after three full batches; one example (index 9) remains. -/
def dsC4c : Dataset := stateAfter (nextBatchStep dsC4b none (some ()) id id) dsC4b

/-- C4 (code bug): at the epoch-rollover batch the divisor search (lines
171-175) tests `len(self.rest) % i == 0` *after* the pool has been reset
to the full range, so it finds the largest divisor of the dataset size
`N = 10` that is `≤ num_gpu = 3` (namely 2) instead of the largest
divisor of the short batch's length `s = 1` (namely 1, the value
`firstDivisorDown 1 3` the claim prescribes); since 2 does not divide the
short batch, `tf.split` fails and the call errors instead of yielding
one shard. -/
theorem C4_divide_num_uses_reset_pool :
    dsC4c.rest = [9] ∧
    nextBatchStep dsC4c none (some ()) id id
      = Except.error "tf.split: number of splits does not divide the batch axis" ∧
    divideNum 3 (List.range 10).length = 2 ∧
    firstDivisorDown 1 3 = some 1 ∧
    ¬ (2 ∣ 1) := by
  refine ⟨rfl, rfl, rfl, rfl, by decide⟩

/-- C10: the constructor multiplies the requested per-GPU batch size by
`num_gpu` (line 38), and a call without an explicit size override uses
that stored product (lines 75-76), so a full single-GPU default batch
holds `batch_size * num_gpu` examples. -/
theorem C10_default_batch_is_product (dt : List Char) (b g F N : Nat) (srt : Bool)
    (il : List (List (List Int))) (ll : List (List Int)) (ip : List (List Char))
    (sample shuffle : List Nat → List Nat)
    (hfull : b * 1 < N) (hsh : ∀ l : List Nat, (shuffle l).Perm l) :
    (datasetBaseInit dt b srt g F il ll ip N).batch_size = b * g ∧
    (∃ ds' btch,
      nextBatchStep (datasetBaseInit dt b true 1 F il ll ip N) none none sample shuffle
        = Except.ok (ds', BatchOut.single btch) ∧
      btch.inputs.length = b * 1) := by
  refine ⟨rfl, ?_⟩
  set ds := datasetBaseInit dt b true 1 F il ll ip N with hds
  refine ⟨{ds with rest := (stepSorted ds ds.batch_size shuffle).rest'},
    (stepSorted ds ds.batch_size shuffle).batch, rfl, ?_⟩
  have hlt : ds.batch_size < ds.rest.length := by
    show b * 1 < (List.range N).length
    rw [List.length_range]
    exact hfull
  have hdrawn : (selectSorted ds.batch_size ds.data_num ds.rest).1
      = ds.rest.take ds.batch_size := by
    simp only [selectSorted, if_pos hlt]
  have hmap : (stepSorted ds ds.batch_size shuffle).batch.inputs.length
      = (shuffle ((selectSorted ds.batch_size ds.data_num ds.rest).1)).length := by
    show ((shuffle _).map _).length = _
    rw [List.length_map]
  rw [hmap, (hsh _).length_eq, hdrawn]
  show ((List.range N).take (b * 1)).length = b * 1
  rw [List.length_take, List.length_range]
  omega

/-- Witness for C10 at `b = 2`, `g = 3`, `N = 5`. -/
theorem C10_default_batch_is_product_witness :
    (datasetBaseInit [] 2 true 3 1 [] [] [] 5).batch_size = 2 * 3 ∧
    (∃ ds' btch,
      nextBatchStep (datasetBaseInit [] 2 true 1 1 [] [] [] 5) none none id id
        = Except.ok (ds', BatchOut.single btch) ∧
      btch.inputs.length = 2 * 1) :=
  C10_default_batch_is_product [] 2 3 1 5 true [] [] [] id id (by decide)
    (fun l => List.Perm.refl l)

end CtcAllLoad
